import Mathlib

/-!
Verification of the streaming TTS queue pipeline of `examples/say-server/server.py`.

The development shallowly embeds:
* `StreamingTextChunker` (sentence-aware chunking of incrementally arriving text),
  parametric in the external tokenizer (the source delegates `tokenize`/`decode` to a
  SentencePiece tokenizer, treated by the spec as an external collaborator), together
  with a concrete character-level tokenizer instance used for concrete evaluation;
* the per-session queue state (`TTSQueueState`) and the tool operations
  `add_tts_text`, `end_tts_queue`, `cancel_tts_queue`, `poll_tts_audio`, plus the
  background task `_run_tts_queue` modelled as atomic interleaved steps (asyncio runs
  one coroutine at a time and the tool bodies contain no awaits, so each operation is
  atomic; `Task.cancel` is cooperative, so a cancelled task performs no further steps).
-/

namespace SayServer

/-- Whitespace test used to model Python's `str.strip()` for the whitespace
characters that can occur in the server's text traffic. -/
def isWS (c : Char) : Bool := c == ' ' || c == '\t' || c == '\n' || c == '\r'

/-- Strip leading and trailing whitespace from a character list (Python `str.strip`). -/
def stripList (l : List Char) : List Char :=
  ((l.dropWhile isWS).reverse.dropWhile isWS).reverse

/-- Python `text.strip()`. -/
def pyStrip (s : String) : String := String.mk (stripList s.data)

/-- External tokenizer contract: `tokenize(text) -> tokens`, `decode(tokens) -> text`
(source: `self.tokenizer(text).tokens[0].tolist()` and `self.tokenizer.sp.decode`). -/
structure Tokenizer (τ : Type) where
  tokenize : String → List τ
  decode : List τ → String

/-- Concrete character-level tokenizer instance: each character is one token. -/
def charTokenizer : Tokenizer Char :=
  { tokenize := fun s => s.data, decode := fun l => String.mk l }

/-- The end-of-sentence token set of the character tokenizer.  The source computes the
set from `tokenizer(".!...?")` minus the leading BOS token, which for a character
tokenizer is the set of characters of ".!...?". -/
def charEosTokens : List Char := ['.', '!', '?']

/-- State of `StreamingTextChunker`: tokenizer, cached end-of-sentence token set,
thresholds and the mutable string buffer. -/
structure StreamingTextChunker (τ : Type) where
  tok : Tokenizer τ
  eosTokens : List τ
  maxTokens : Nat
  minTokens : Nat
  buffer : String

variable {τ : Type} [DecidableEq τ]

/-- Scan of `_find_best_split`'s boundary loop: emit index `i` whenever the previous
token was end-of-sentence and the current one is not (position AFTER the punctuation
run).  `i` is the index of the current token, `prev` the `prev_was_eos` flag. -/
def findBoundariesAux (eos : List τ) : List τ → Nat → Bool → List Nat
  | [], _, _ => []
  | t :: ts, i, prev =>
    if t ∈ eos then findBoundariesAux eos ts (i + 1) true
    else if prev then i :: findBoundariesAux eos ts (i + 1) false
    else findBoundariesAux eos ts (i + 1) false

/-- All sentence boundaries of `_find_best_split`: the scan positions plus
`len(tokens)` when the token list ends with end-of-sentence punctuation. -/
def findBoundaries (eos : List τ) (tokens : List τ) : List Nat :=
  findBoundariesAux eos tokens 0 false ++
    (match tokens.getLast? with
     | none => []
     | some t => if t ∈ eos then [tokens.length] else [])

/-- The `best_boundary` accumulation loop of `_find_best_split`:
`if boundary <= max: best = boundary` / `elif best == 0: best = boundary; break` /
`else: break`. -/
def bestBoundaryLoop (maxT : Nat) : Nat → List Nat → Nat
  | best, [] => best
  | best, b :: bs =>
    if b ≤ maxT then bestBoundaryLoop maxT b bs
    else if best = 0 then b else best

/-- Model of `StreamingTextChunker._find_best_split`. -/
def findBestSplit (eos : List τ) (maxT : Nat) (tokens : List τ) (forceEmit : Bool) : Nat :=
  let boundaries := findBoundaries eos tokens
  if boundaries = [] then
    if maxT ≤ tokens.length then maxT
    else if forceEmit = true then tokens.length else 0
  else bestBoundaryLoop maxT 0 boundaries

/-- Model of `StreamingTextChunker._ends_with_sentence_boundary`. -/
def endsWithSentenceBoundary (eos : List τ) (tokens : List τ) : Bool :=
  match tokens.getLast? with
  | none => false
  | some t => decide (t ∈ eos)

/-- Model of `StreamingTextChunker._try_extract_chunk`.  `none` means "no chunk ready"; the
source mutates nothing on that path, so the state is returned only on success. -/
def tryExtractChunk (c : StreamingTextChunker τ) (forceEmit : Bool) :
    Option (String × StreamingTextChunker τ) :=
  let text := pyStrip c.buffer
  if text = "" then none
  else
    let tokens := c.tok.tokenize text
    let numTokens := tokens.length
    if numTokens < c.minTokens ∧ forceEmit = false then none
    else if numTokens < c.maxTokens ∧ forceEmit = false then
      if c.minTokens ≤ numTokens ∧ endsWithSentenceBoundary c.eosTokens tokens = true then
        some (text, { c with buffer := "" })
      else none
    else
      let splitIdx := findBestSplit c.eosTokens c.maxTokens tokens forceEmit
      if splitIdx = 0 then
        if forceEmit = true then some (text, { c with buffer := "" }) else none
      else
        let chunkText := c.tok.decode (tokens.take splitIdx)
        let remainingText := c.tok.decode (tokens.drop splitIdx)
        some (pyStrip chunkText, { c with buffer := remainingText })

/-- The `while True` loop of `_extract_ready_chunks`, with explicit fuel.  The source
iterates until `_try_extract_chunk` returns `None`; every successful extraction
strictly shortens the buffer for the tokenizers considered here, so
`buffer.length + 1` fuel reproduces the source loop exactly.  The argument
`force_emit and not chunks` is `forceEmit` on the first iteration and `false` after. -/
def extractReadyChunksFuel (fuel : Nat) (c : StreamingTextChunker τ) (forceEmit : Bool) :
    List String × StreamingTextChunker τ :=
  match fuel with
  | 0 => ([], c)
  | fuel + 1 =>
    match tryExtractChunk c forceEmit with
    | none => ([], c)
    | some (ch, c2) =>
      let rest := extractReadyChunksFuel fuel c2 false
      (ch :: rest.1, rest.2)

/-- Model of `StreamingTextChunker._extract_ready_chunks`. -/
def extractReadyChunks (c : StreamingTextChunker τ) (forceEmit : Bool) :
    List String × StreamingTextChunker τ :=
  extractReadyChunksFuel (c.buffer.length + 1) c forceEmit

/-- Model of `StreamingTextChunker.add_text`: append to the buffer, then extract ready chunks. -/
def addText (c : StreamingTextChunker τ) (text : String) :
    List String × StreamingTextChunker τ :=
  extractReadyChunks { c with buffer := c.buffer ++ text } false

/-- Model of `StreamingTextChunker.flush`. -/
def flush (c : StreamingTextChunker τ) : List String × StreamingTextChunker τ :=
  if pyStrip c.buffer = "" then ([], c)
  else
    let r := extractReadyChunks c true
    if pyStrip r.2.buffer = "" then (r.1, r.2)
    else (r.1 ++ [pyStrip r.2.buffer], { r.2 with buffer := "" })

/-- A chunker over the character tokenizer, as created by `_run_tts_queue`
(`StreamingTextChunker(tokenizer)` with default thresholds made explicit). -/
def mkCharChunker (maxT minT : Nat) (buf : String) : StreamingTextChunker Char :=
  { tok := charTokenizer, eosTokens := charEosTokens,
    maxTokens := maxT, minTokens := minT, buffer := buf }

/-- Feed a list of incremental text fragments to the chunker in order, collecting the
emitted chunks (the per-fragment `chunker.add_text(text_item)` calls of
`_run_tts_queue`). -/
def feedFragments (c : StreamingTextChunker τ) : List String →
    List String × StreamingTextChunker τ
  | [] => ([], c)
  | t :: ts =>
    let r := addText c t
    let rest := feedFragments r.2 ts
    (r.1 ++ rest.1, rest.2)

/-- All chunk texts of a session: fragments fed one by one, then the EOF flush
(`_run_tts_queue` on receiving the `None` sentinel). -/
def sessionChunkTexts (maxT minT : Nat) (frags : List String) : List String :=
  let r := feedFragments (mkCharChunker maxT minT "") frags
  r.1 ++ (flush r.2).1

/-- The `char_start`/`char_end` assignment of `_run_tts_queue`: a running offset advanced
by `len(chunk_text)` for each chunk, `char_end = char_start + len(chunk_text)`. -/
def withOffsets : List String → Nat → List (String × Nat × Nat)
  | [], _ => []
  | t :: ts, off => (t, off, off + t.length) :: withOffsets ts (off + t.length)

/-- The emitted chunks of a session with their character ranges. -/
def sessionChunksWithOffsets (maxT minT : Nat) (frags : List String) :
    List (String × Nat × Nat) :=
  withOffsets (sessionChunkTexts maxT minT frags) 0

/-- Concatenation of the character data of a list of strings. -/
def dataJoin (l : List String) : List Char := (l.map String.data).flatten

/-- Concatenation of a list of strings. -/
def concatTexts (l : List String) : String := String.mk (dataJoin l)

/-- Relation stating that `l2` is obtained from `l1` by deleting only whitespace characters (order kept,
nothing duplicated, nothing inserted). -/
inductive WSDel : List Char → List Char → Prop
  | nil : WSDel [] []
  | keep (c : Char) {l l2 : List Char} : WSDel l l2 → WSDel (c :: l) (c :: l2)
  | del (c : Char) {l l2 : List Char} (h : isWS c = true) : WSDel l l2 → WSDel (c :: l) l2

/-- A buffer that is empty whenever its strip is empty (i.e. not whitespace-only
unless actually empty).  All buffers produced by a successful chunk extraction
satisfy this. -/
def stripFaithful (s : String) : Prop := pyStrip s = "" → s = ""

/-- Contiguity of chunk character ranges starting at a given offset: each chunk is
`[a, b)` with `b = a + length` and the next chunk starts at `b`. -/
def contiguousFrom : Nat → List (String × Nat × Nat) → Prop
  | _, [] => True
  | off, (t, a, b) :: rest => a = off ∧ b = off + t.length ∧ contiguousFrom b rest

/-- Session lifecycle status (`TTSQueueState.status`). -/
inductive Status
  | active
  | complete
  | error
deriving DecidableEq, Repr

/-- Model of `AudioChunkData`: one synthesized audio chunk with timing metadata.  The base64
payload is opaque to the queue logic; `durationMs` is kept as a natural number of
milliseconds (the synthesis backend producing it is external). -/
structure AudioChunkData where
  index : Nat
  audioBase64 : String
  charStart : Nat
  charEnd : Nat
  durationMs : Nat
deriving DecidableEq, Repr

/-- Model of `QUEUE_TIMEOUT_SECONDS`. -/
def QUEUE_TIMEOUT_SECONDS : Nat := 30

/-- The timeout error message set by `_run_tts_queue`
(`f"Queue timeout: no activity for \x7bQUEUE_TIMEOUT_SECONDS\x7ds"`). -/
def timeoutMessage : String := "Queue timeout: no activity for 30s"

/-- Model of `TTSQueueState` together with its registry presence.  `textQueue` is the FIFO of
text fragments with `none` as the end-of-stream sentinel; `queueMaxsize` models the
`asyncio.Queue(maxsize)` bound, `0` meaning unbounded (the default used by the
source); `taskAlive` records whether the background task can still run (it is false
once the task finished or was cancelled — `Task.cancel` is cooperative, and a
cancelled task executes no further code); `inRegistry` records membership in the
global `tts_queues` table.  Timestamps are natural-number seconds. -/
structure TTSQueueState where
  id : String
  voice : String
  sampleRate : Nat
  status : Status
  errorMessage : Option String
  textQueue : List (Option String)
  queueMaxsize : Nat
  endSignaled : Bool
  audioChunks : List AudioChunkData
  chunksDelivered : Nat
  lastActivity : Nat
  taskAlive : Bool
  inRegistry : Bool
deriving DecidableEq, Repr

/-- Model of `create_tts_queue`: a fresh session.  `asyncio.Queue()` is created with the
default `maxsize=0` (unbounded). -/
def mkQueueState (id voice : String) (sampleRate now : Nat) : TTSQueueState :=
  { id := id, voice := voice, sampleRate := sampleRate, status := Status.active,
    errorMessage := none, textQueue := [], queueMaxsize := 0, endSignaled := false,
    audioChunks := [], chunksDelivered := 0, lastActivity := now,
    taskAlive := true, inRegistry := true }

/-- Model of `Queue.put_nowait`: it succeeds iff the queue is unbounded or not full. -/
def queuePutOk (s : TTSQueueState) : Bool :=
  s.queueMaxsize == 0 || s.textQueue.length < s.queueMaxsize

/-- Result of `add_tts_text` (the JSON bodies returned by the tool). -/
inductive AddTextResult
  | notFound
  | alreadyEnded
  | queueFull
  | queued
deriving DecidableEq, Repr

/-- Model of `add_tts_text`: reject unknown or already-ended queues, otherwise enqueue the
fragment and record activity. -/
def addTtsText (s : TTSQueueState) (text : String) (now : Nat) :
    AddTextResult × TTSQueueState :=
  if s.inRegistry = false then (AddTextResult.notFound, s)
  else if s.endSignaled = true then (AddTextResult.alreadyEnded, s)
  else if queuePutOk s = true then
    (AddTextResult.queued,
      { s with textQueue := s.textQueue ++ [some text], lastActivity := now })
  else (AddTextResult.queueFull, s)

/-- Result of `end_tts_queue`: `alreadyEnded` is the non-error
`{"already_ended": true}` indication. -/
inductive EndQueueResult
  | notFound
  | alreadyEnded
  | ended
deriving DecidableEq, Repr

/-- Model of `end_tts_queue`: idempotent end-of-stream signal; enqueues the `None` sentinel
(silently dropped if the queue were bounded and full). -/
def endTtsQueue (s : TTSQueueState) (now : Nat) : EndQueueResult × TTSQueueState :=
  if s.inRegistry = false then (EndQueueResult.notFound, s)
  else if s.endSignaled = true then (EndQueueResult.alreadyEnded, s)
  else
    let s1 := { s with endSignaled := true, lastActivity := now }
    if queuePutOk s1 = true then
      (EndQueueResult.ended, { s1 with textQueue := s1.textQueue ++ [none] })
    else (EndQueueResult.ended, s1)

/-- Result of `cancel_tts_queue`. -/
inductive CancelResult
  | notFound
  | cancelled
deriving DecidableEq, Repr

/-- Model of `cancel_tts_queue`: pop the session from the registry, cancel the background
task, signal end, enqueue the sentinel, and set status to complete. -/
def cancelTtsQueue (s : TTSQueueState) : CancelResult × TTSQueueState :=
  if s.inRegistry = false then (CancelResult.notFound, s)
  else
    let s1 := { s with inRegistry := false, taskAlive := false, endSignaled := true }
    let s2 :=
      if queuePutOk s1 = true then { s1 with textQueue := s1.textQueue ++ [none] }
      else s1
    (CancelResult.cancelled, { s2 with status := Status.complete })

/-- The JSON response of `poll_tts_audio`. -/
structure PollResponse where
  chunks : List AudioChunkData
  done : Bool
  status : Status
  errorMessage : Option String
deriving DecidableEq, Repr

/-- Model of `poll_tts_audio`: record activity, return the chunks past the delivery cursor,
advance the cursor to the current chunk count, and report `done` once the status is
terminal and everything has been delivered.  `none` models the "Queue not found"
error.  (The delayed 60s cleanup scheduled on `done` is not part of any claim and is
not modelled.) -/
def pollTtsAudio (s : TTSQueueState) (now : Nat) :
    Option PollResponse × TTSQueueState :=
  if s.inRegistry = false then (none, s)
  else
    let s1 := { s with lastActivity := now }
    let newChunks := s1.audioChunks.drop s1.chunksDelivered
    let s2 := { s1 with chunksDelivered := s1.audioChunks.length }
    let done := (decide (s2.status = Status.complete) || decide (s2.status = Status.error))
      && decide (s2.audioChunks.length ≤ s2.chunksDelivered)
    (some { chunks := newChunks, done := done, status := s2.status,
            errorMessage := s2.errorMessage }, s2)

/-- Staleness check of `_run_tts_queue` (reached when `wait_for` times out): if more
than `QUEUE_TIMEOUT_SECONDS` elapsed since the last activity, fail the session and
stop the loop; otherwise keep waiting. -/
def taskTimeoutCheck (s : TTSQueueState) (now : Nat) : TTSQueueState :=
  if QUEUE_TIMEOUT_SECONDS < now - s.lastActivity then
    { s with status := Status.error, errorMessage := some timeoutMessage,
             taskAlive := false }
  else s

/-- Background task dequeues a text fragment (head of the queue is a fragment). -/
def taskReceiveText (s : TTSQueueState) : TTSQueueState :=
  { s with textQueue := s.textQueue.tail }

/-- Background task appends one synthesized chunk (`_process_tts_chunk`, the append
under the session lock). -/
def taskAppendChunk (s : TTSQueueState) (c : AudioChunkData) : TTSQueueState :=
  { s with audioChunks := s.audioChunks ++ [c] }

/-- Background task receives the end-of-stream sentinel and finishes: after the final
flush chunks are appended, status becomes complete and the loop stops. -/
def taskFinishEOF (s : TTSQueueState) : TTSQueueState :=
  { s with textQueue := s.textQueue.tail, status := Status.complete,
           taskAlive := false }

/-- Background task hits an unhandled synthesis failure: status becomes error with
the failure message and the loop stops. -/
def taskSynthFailure (s : TTSQueueState) (msg : String) : TTSQueueState :=
  { s with status := Status.error, errorMessage := some msg, taskAlive := false }

/-- One atomic step of the system on a session, excluding `cancel_tts_queue`.
Background-task steps require the task to be alive; the staleness check fires only
when the input queue has been empty across the bounded wait. -/
inductive StepNC : TTSQueueState → TTSQueueState → Prop
  | add {s : TTSQueueState} (t : String) (now : Nat) : StepNC s (addTtsText s t now).2
  | endq {s : TTSQueueState} (now : Nat) : StepNC s (endTtsQueue s now).2
  | poll {s : TTSQueueState} (now : Nat) : StepNC s (pollTtsAudio s now).2
  | timeout {s : TTSQueueState} (now : Nat) (halive : s.taskAlive = true)
      (hempty : s.textQueue = []) : StepNC s (taskTimeoutCheck s now)
  | recvText {s : TTSQueueState} (t : String) (halive : s.taskAlive = true)
      (hhead : s.textQueue.head? = some (some t)) : StepNC s (taskReceiveText s)
  | appendChunk {s : TTSQueueState} (c : AudioChunkData)
      (halive : s.taskAlive = true) : StepNC s (taskAppendChunk s c)
  | finishEOF {s : TTSQueueState} (halive : s.taskAlive = true)
      (hhead : s.textQueue.head? = some none) : StepNC s (taskFinishEOF s)
  | synthFail {s : TTSQueueState} (msg : String) (halive : s.taskAlive = true) :
      StepNC s (taskSynthFailure s msg)

/-- One atomic step of the system on a session, including `cancel_tts_queue`. -/
inductive Step : TTSQueueState → TTSQueueState → Prop
  | nc {s s2 : TTSQueueState} : StepNC s s2 → Step s s2
  | cancel {s : TTSQueueState} : Step s (cancelTtsQueue s).2

/-- Events for the append/poll delivery trace of a session (`poll_tts_audio`
interleaved with the background task's appends and terminal transitions). -/
inductive PollEv
  | append (c : AudioChunkData)
  | poll (now : Nat)
  | finish
  | fail (msg : String)

/-- Apply one delivery-trace event; polls produce a response. -/
def replayEv (s : TTSQueueState) : PollEv → TTSQueueState × Option PollResponse
  | PollEv.append c => (taskAppendChunk s c, none)
  | PollEv.poll now =>
    let r := pollTtsAudio s now
    (r.2, r.1)
  | PollEv.finish => ({ s with status := Status.complete, taskAlive := false }, none)
  | PollEv.fail msg => (taskSynthFailure s msg, none)

/-- Replay a delivery trace, collecting the poll responses in order. -/
def replay (s : TTSQueueState) : List PollEv → TTSQueueState × List PollResponse
  | [] => (s, [])
  | e :: es =>
    let r := replayEv s e
    let rest := replay r.1 es
    (rest.1, match r.2 with
             | none => rest.2
             | some resp => resp :: rest.2)

/-! Basic facts about strings, whitespace deletion and stripping. -/

theorem string_mk_data (s : String) : String.mk s.data = s := rfl

theorem string_mk_eq_empty_iff (l : List Char) : String.mk l = "" ↔ l = [] := by
  constructor
  · intro h
    have : (String.mk l).data = ("" : String).data := by rw [h]
    simpa using this
  · intro h
    rw [h]

theorem wsdel_refl (l : List Char) : WSDel l l := by
  induction l with
  | nil => exact WSDel.nil
  | cons c l ih => exact WSDel.keep c ih

theorem wsdel_append {a a2 b b2 : List Char} (ha : WSDel a a2) (hb : WSDel b b2) :
    WSDel (a ++ b) (a2 ++ b2) := by
  induction ha with
  | nil => simpa using hb
  | keep c _ ih => exact WSDel.keep c ih
  | del c hws _ ih => exact WSDel.del c hws ih

theorem wsdel_trans {a b c : List Char} (h1 : WSDel a b) (h2 : WSDel b c) : WSDel a c := by
  induction h1 generalizing c with
  | nil => exact h2
  | keep d _ ih =>
    cases h2 with
    | keep _ ht => exact WSDel.keep d (ih ht)
    | del _ hws ht => exact WSDel.del d hws (ih ht)
  | del d hws _ ih => exact WSDel.del d hws (ih h2)

theorem wsdel_to_nil {l : List Char} (h : ∀ c ∈ l, isWS c = true) : WSDel l [] := by
  induction l with
  | nil => exact WSDel.nil
  | cons c l ih =>
    exact WSDel.del c (h c (List.mem_cons_self c l)) (ih fun d hd => h d (List.mem_cons_of_mem c hd))

theorem wsdel_nil_right : ∀ {l : List Char}, WSDel l [] → ∀ c ∈ l, isWS c = true := by
  intro l
  induction l with
  | nil => intro _ c hc; simp at hc
  | cons a l ih =>
    intro h c hc
    cases h with
    | del _ hws ht =>
      rcases List.mem_cons.mp hc with h1 | h2
      · rw [h1]; exact hws
      · exact ih ht c h2

theorem wsdel_dropWhile (l : List Char) : WSDel l (l.dropWhile isWS) := by
  induction l with
  | nil => exact WSDel.nil
  | cons c l ih =>
    rw [List.dropWhile_cons]
    by_cases h : isWS c = true
    · rw [if_pos h]; exact WSDel.del c h ih
    · rw [if_neg h]; exact WSDel.keep c (wsdel_refl l)

theorem wsdel_backDrop (l : List Char) : WSDel l ((l.reverse.dropWhile isWS).reverse) := by
  induction l using List.reverseRecOn with
  | nil => exact WSDel.nil
  | append_singleton m c ih =>
    rw [List.reverse_concat, List.dropWhile_cons]
    by_cases h : isWS c = true
    · rw [if_pos h]
      have h2 : WSDel (m ++ [c]) ((m.reverse.dropWhile isWS).reverse ++ []) :=
        wsdel_append ih (WSDel.del c h WSDel.nil)
      simpa using h2
    · rw [if_neg h]
      simpa using wsdel_refl (m ++ [c])

theorem wsdel_stripList (l : List Char) : WSDel l (stripList l) :=
  wsdel_trans (wsdel_dropWhile l) (wsdel_backDrop (l.dropWhile isWS))

theorem wsdel_eq_of_noWS {l l2 : List Char} (h : WSDel l l2)
    (hw : ∀ c ∈ l, isWS c = false) : l = l2 := by
  induction h with
  | nil => rfl
  | keep c _ ih =>
    have := ih fun d hd => hw d (List.mem_cons_of_mem c hd)
    rw [this]
  | del c hws _ _ =>
    have := hw c (List.mem_cons_self c _)
    rw [hws] at this
    exact absurd this (by simp)

theorem wsdel_sublist {l l2 : List Char} (h : WSDel l l2) : List.Sublist l2 l := by
  induction h with
  | nil => exact List.Sublist.refl []
  | keep c _ ih => exact List.Sublist.cons₂ c ih
  | del c _ _ ih => exact List.Sublist.cons c ih

theorem allWS_of_stripList_nil {l : List Char} (h : stripList l = []) :
    ∀ c ∈ l, isWS c = true := by
  have hd := wsdel_stripList l
  rw [h] at hd
  exact wsdel_nil_right hd

theorem head?_dropWhile_not {p : Char → Bool} :
    ∀ {m : List Char} {c : Char}, (m.dropWhile p).head? = some c → p c = false := by
  intro m
  induction m with
  | nil => intro c h; simp [List.dropWhile] at h
  | cons a m ih =>
    intro c h
    by_cases hp : p a = true
    · rw [List.dropWhile_cons, if_pos hp] at h
      exact ih h
    · rw [List.dropWhile_cons, if_neg hp] at h
      simp at h
      rw [← h]
      simpa using hp

theorem stripList_getLast?_not_ws {l : List Char} {c : Char}
    (h : (stripList l).getLast? = some c) : isWS c = false := by
  rw [stripList, List.getLast?_reverse] at h
  exact head?_dropWhile_not h

theorem getLast?_drop {l : List Char} {k : Nat} (h : l.drop k ≠ []) :
    (l.drop k).getLast? = l.getLast? := by
  conv_rhs => rw [← List.take_append_drop k l]
  rw [List.getLast?_append]
  cases hd : (l.drop k).getLast? with
  | none => exact absurd (List.getLast?_eq_none_iff.mp hd) h
  | some c => rfl

theorem mem_of_getLast? {l : List Char} {c : Char} (h : l.getLast? = some c) : c ∈ l := by
  induction l using List.reverseRecOn with
  | nil => simp at h
  | append_singleton m a _ =>
    rw [List.getLast?_concat] at h
    have : a = c := by simpa using h
    rw [← this]
    exact List.mem_append_right m (List.mem_cons_self a [])

theorem stripFaithful_empty : stripFaithful "" := fun _ => rfl

/-- Any suffix of a stripped character list is a `stripFaithful` buffer: if nonempty,
its last character is the last character of the stripped list, which is not
whitespace, so its own strip is nonempty. -/
theorem stripFaithful_drop_stripList (l : List Char) (k : Nat) :
    stripFaithful (String.mk ((stripList l).drop k)) := by
  intro h
  rw [string_mk_eq_empty_iff]
  by_contra hne
  have hlast : ((stripList l).drop k).getLast? = (stripList l).getLast? := getLast?_drop hne
  cases hl : ((stripList l).drop k).getLast? with
  | none => exact hne (List.getLast?_eq_none_iff.mp hl)
  | some c =>
    have hnws : isWS c = false := stripList_getLast?_not_ws (hlast ▸ hl)
    have hstrip_nil : stripList ((stripList l).drop k) = [] := by
      have : (pyStrip (String.mk ((stripList l).drop k))).data = ("" : String).data := by
        rw [h]
      simpa [pyStrip] using this
    have hws : isWS c = true :=
      allWS_of_stripList_nil hstrip_nil c (mem_of_getLast? hl)
    rw [hnws] at hws
    exact absurd hws (by simp)

@[simp] theorem pyStrip_data (s : String) : (pyStrip s).data = stripList s.data := rfl

@[simp] theorem mk_data (l : List Char) : (String.mk l).data = l := rfl

@[simp] theorem dataJoin_nil : dataJoin [] = [] := rfl

@[simp] theorem dataJoin_cons (a : String) (l : List String) :
    dataJoin (a :: l) = a.data ++ dataJoin l := by
  simp [dataJoin]

theorem dataJoin_append (l1 l2 : List String) :
    dataJoin (l1 ++ l2) = dataJoin l1 ++ dataJoin l2 := by
  simp [dataJoin]

/-! Chunk extraction over the character tokenizer: every successful extraction
deletes only whitespace (the strips), preserves the chunker configuration, and
leaves a buffer that is not whitespace-only unless empty. -/

theorem tryExtractChunk_some_char {c : StreamingTextChunker Char} {forceEmit : Bool}
    {ch : String} {c2 : StreamingTextChunker Char} (htok : c.tok = charTokenizer)
    (h : tryExtractChunk c forceEmit = some (ch, c2)) :
    WSDel c.buffer.data (ch.data ++ c2.buffer.data) ∧
    c2.tok = c.tok ∧ c2.eosTokens = c.eosTokens ∧ c2.maxTokens = c.maxTokens ∧
    c2.minTokens = c.minTokens ∧ stripFaithful c2.buffer := by
  simp only [tryExtractChunk, htok, charTokenizer] at h
  split at h
  · exact absurd h (by simp)
  · split at h
    · exact absurd h (by simp)
    · split at h
      · split at h
        · simp only [Option.some_inj, Prod.mk.injEq] at h
          obtain ⟨h1, h2⟩ := h
          subst h1; subst h2
          refine ⟨?_, htok.symm, rfl, rfl, rfl, stripFaithful_empty⟩
          simpa using wsdel_stripList c.buffer.data
        · exact absurd h (by simp)
      · split at h
        · split at h
          · simp only [Option.some_inj, Prod.mk.injEq] at h
            obtain ⟨h1, h2⟩ := h
            subst h1; subst h2
            refine ⟨?_, htok.symm, rfl, rfl, rfl, stripFaithful_empty⟩
            simpa using wsdel_stripList c.buffer.data
          · exact absurd h (by simp)
        · simp only [Option.some_inj, Prod.mk.injEq] at h
          obtain ⟨h1, h2⟩ := h
          subst h1; subst h2
          refine ⟨?_, htok.symm, rfl, rfl, rfl, ?_⟩
          · simp only [pyStrip_data, mk_data]
            refine wsdel_trans (wsdel_stripList c.buffer.data) ?_
            have h3 : WSDel
                (List.take (findBestSplit c.eosTokens c.maxTokens
                    (stripList c.buffer.data) forceEmit) (stripList c.buffer.data) ++
                  List.drop (findBestSplit c.eosTokens c.maxTokens
                    (stripList c.buffer.data) forceEmit) (stripList c.buffer.data))
                (stripList (List.take (findBestSplit c.eosTokens c.maxTokens
                    (stripList c.buffer.data) forceEmit) (stripList c.buffer.data)) ++
                  List.drop (findBestSplit c.eosTokens c.maxTokens
                    (stripList c.buffer.data) forceEmit) (stripList c.buffer.data)) :=
              wsdel_append (wsdel_stripList _) (wsdel_refl _)
            rwa [List.take_append_drop] at h3
          · exact stripFaithful_drop_stripList c.buffer.data _

theorem tryExtractChunk_force_isSome {τ : Type} [DecidableEq τ]
    {c : StreamingTextChunker τ} (h : pyStrip c.buffer ≠ "") :
    (tryExtractChunk c true).isSome = true := by
  simp only [tryExtractChunk, if_neg h]
  split
  · rename_i hcond
    exact absurd hcond.2 (by simp)
  · split
    · rename_i hcond
      exact absurd hcond.2 (by simp)
    · split
      · simp
      · simp

/-- Invariants of the `_extract_ready_chunks` loop over the character tokenizer:
the buffer evolves by deleting only whitespace into the emitted chunks, the
configuration is preserved, and unless the loop did nothing the final buffer is not
whitespace-only unless empty. -/
theorem extractFuel_char (fuel : Nat) :
    ∀ (c : StreamingTextChunker Char) (forceEmit : Bool), c.tok = charTokenizer →
    WSDel c.buffer.data
      (dataJoin (extractReadyChunksFuel fuel c forceEmit).1 ++
        (extractReadyChunksFuel fuel c forceEmit).2.buffer.data) ∧
    (extractReadyChunksFuel fuel c forceEmit).2.tok = charTokenizer ∧
    (((extractReadyChunksFuel fuel c forceEmit).1 = [] ∧
        (extractReadyChunksFuel fuel c forceEmit).2 = c) ∨
      stripFaithful (extractReadyChunksFuel fuel c forceEmit).2.buffer) := by
  induction fuel with
  | zero =>
    intro c f htok
    simp only [extractReadyChunksFuel]
    refine ⟨?_, htok, by simp⟩
    simpa using wsdel_refl c.buffer.data
  | succ fuel ih =>
    intro c f htok
    cases hx : tryExtractChunk c f with
    | none =>
      simp only [extractReadyChunksFuel, hx]
      exact ⟨by simpa using wsdel_refl c.buffer.data, htok, by simp⟩
    | some p =>
      obtain ⟨ch, c2⟩ := p
      obtain ⟨hw, htok2, _, _, _, hsf⟩ := tryExtractChunk_some_char htok hx
      have ihh := ih c2 false (htok2.trans htok)
      simp only [extractReadyChunksFuel, hx]
      refine ⟨?_, ihh.2.1, ?_⟩
      · have h2 : WSDel (ch.data ++ c2.buffer.data)
            (ch.data ++ (dataJoin (extractReadyChunksFuel fuel c2 false).1 ++
              (extractReadyChunksFuel fuel c2 false).2.buffer.data)) :=
          wsdel_append (wsdel_refl ch.data) ihh.1
        have h3 := wsdel_trans hw h2
        simpa [List.append_assoc] using h3
      · rcases ihh.2.2 with ⟨_, heq⟩ | hsf2
        · rw [heq]
          exact Or.inr hsf
        · exact Or.inr hsf2

/-- Restatement of `extractFuel_char` for `_extract_ready_chunks` itself. -/
theorem extract_char {c : StreamingTextChunker Char} (f : Bool) (htok : c.tok = charTokenizer) :
    WSDel c.buffer.data
      (dataJoin (extractReadyChunks c f).1 ++ (extractReadyChunks c f).2.buffer.data) ∧
    (extractReadyChunks c f).2.tok = charTokenizer ∧
    (((extractReadyChunks c f).1 = [] ∧ (extractReadyChunks c f).2 = c) ∨
      stripFaithful (extractReadyChunks c f).2.buffer) :=
  extractFuel_char (c.buffer.length + 1) c f htok

/-- A forced extraction on a non-blank buffer always emits at least one chunk. -/
theorem extractFuel_force_ne_nil {τ : Type} [DecidableEq τ] {c : StreamingTextChunker τ}
    (h : pyStrip c.buffer ≠ "") (fuel : Nat) :
    (extractReadyChunksFuel (fuel + 1) c true).1 ≠ [] := by
  have hs := tryExtractChunk_force_isSome (c := c) h
  cases hx : tryExtractChunk c true with
  | none => rw [hx] at hs; simp at hs
  | some p =>
    obtain ⟨ch, c2⟩ := p
    simp only [extractReadyChunksFuel, hx]
    simp

theorem addText_char {c : StreamingTextChunker Char} (htok : c.tok = charTokenizer)
    (t : String) :
    WSDel (c.buffer.data ++ t.data)
      (dataJoin (addText c t).1 ++ (addText c t).2.buffer.data) ∧
    (addText c t).2.tok = charTokenizer := by
  have h := extract_char (c := { c with buffer := c.buffer ++ t }) false htok
  refine ⟨?_, h.2.1⟩
  have hd : ({ c with buffer := c.buffer ++ t } :
      StreamingTextChunker Char).buffer.data = c.buffer.data ++ t.data := by
    simp [String.data_append]
  rw [hd] at h
  exact h.1

theorem feedFragments_char : ∀ (frags : List String) (c : StreamingTextChunker Char),
    c.tok = charTokenizer →
    WSDel (c.buffer.data ++ dataJoin frags)
      (dataJoin (feedFragments c frags).1 ++ (feedFragments c frags).2.buffer.data) ∧
    (feedFragments c frags).2.tok = charTokenizer := by
  intro frags
  induction frags with
  | nil =>
    intro c htok
    refine ⟨?_, htok⟩
    simp only [feedFragments, dataJoin_nil, List.append_nil]
    simpa using wsdel_refl c.buffer.data
  | cons t ts ih =>
    intro c htok
    obtain ⟨h1, htok1⟩ := addText_char htok t
    obtain ⟨h2, htok2⟩ := ih (addText c t).2 htok1
    refine ⟨?_, by simpa [feedFragments] using htok2⟩
    simp only [feedFragments, dataJoin_cons, dataJoin_append]
    have h3 : WSDel (c.buffer.data ++ t.data ++ dataJoin ts)
        (dataJoin (addText c t).1 ++ (addText c t).2.buffer.data ++ dataJoin ts) :=
      wsdel_append h1 (wsdel_refl _)
    have h4 : WSDel
        (dataJoin (addText c t).1 ++ ((addText c t).2.buffer.data ++ dataJoin ts))
        (dataJoin (addText c t).1 ++
          (dataJoin (feedFragments (addText c t).2 ts).1 ++
            (feedFragments (addText c t).2 ts).2.buffer.data)) :=
      wsdel_append (wsdel_refl _) h2
    simp only [List.append_assoc] at h3 h4 ⊢
    exact wsdel_trans h3 h4

theorem flush_char_wsdel {c : StreamingTextChunker Char} (htok : c.tok = charTokenizer) :
    WSDel c.buffer.data (dataJoin (flush c).1) := by
  by_cases h : pyStrip c.buffer = ""
  · simp only [flush, if_pos h, dataJoin_nil]
    have hall : ∀ ch ∈ c.buffer.data, isWS ch = true := by
      apply allWS_of_stripList_nil
      have h2 : (pyStrip c.buffer).data = ("" : String).data := by rw [h]
      simpa using h2
    exact wsdel_to_nil hall
  · simp only [flush, if_neg h]
    obtain ⟨hw, _, _⟩ := extract_char (c := c) true htok
    split
    · rename_i h2
      have hall : ∀ ch ∈ (extractReadyChunks c true).2.buffer.data, isWS ch = true := by
        apply allWS_of_stripList_nil
        have h3 : (pyStrip (extractReadyChunks c true).2.buffer).data =
            ("" : String).data := by rw [h2]
        simpa using h3
      have h4 := wsdel_trans hw
        (wsdel_append (wsdel_refl (dataJoin (extractReadyChunks c true).1))
          (wsdel_to_nil hall))
      simpa using h4
    · have h5 : WSDel
          (dataJoin (extractReadyChunks c true).1 ++ (extractReadyChunks c true).2.buffer.data)
          (dataJoin (extractReadyChunks c true).1 ++
            stripList (extractReadyChunks c true).2.buffer.data) :=
        wsdel_append (wsdel_refl _) (wsdel_stripList _)
      have h6 := wsdel_trans hw h5
      simpa [dataJoin_append] using h6

theorem flush_char_drains {c : StreamingTextChunker Char} (htok : c.tok = charTokenizer)
    (h : pyStrip c.buffer ≠ "") :
    (flush c).1 ≠ [] ∧ (flush c).2.buffer = "" := by
  simp only [flush, if_neg h]
  obtain ⟨_, _, hor⟩ := extract_char (c := c) true htok
  have hne : (extractReadyChunks c true).1 ≠ [] :=
    extractFuel_force_ne_nil (c := c) h c.buffer.length
  have hsf : stripFaithful (extractReadyChunks c true).2.buffer := by
    rcases hor with ⟨h1, _⟩ | hsf
    · exact absurd h1 hne
    · exact hsf
  split
  · rename_i h2
    exact ⟨hne, hsf h2⟩
  · simp [hne]

/-- Full-session text conservation over the character tokenizer: the emitted chunk
texts arise from the concatenated fragments by deleting only whitespace. -/
theorem sessionChunkTexts_wsdel (maxT minT : Nat) (frags : List String) :
    WSDel (dataJoin frags) (dataJoin (sessionChunkTexts maxT minT frags)) := by
  obtain ⟨h1, htok1⟩ := feedFragments_char frags (mkCharChunker maxT minT "") rfl
  have h2 := flush_char_wsdel
    (c := (feedFragments (mkCharChunker maxT minT "") frags).2) htok1
  simp only [sessionChunkTexts, dataJoin_append]
  have h1b : WSDel (dataJoin frags)
      (dataJoin (feedFragments (mkCharChunker maxT minT "") frags).1 ++
        (feedFragments (mkCharChunker maxT minT "") frags).2.buffer.data) := by
    simpa using h1
  have h3 := wsdel_append
    (wsdel_refl (dataJoin (feedFragments (mkCharChunker maxT minT "") frags).1)) h2
  exact wsdel_trans h1b h3

theorem withOffsets_contiguous : ∀ (ts : List String) (off : Nat),
    contiguousFrom off (withOffsets ts off) := by
  intro ts
  induction ts with
  | nil => intro off; trivial
  | cons t ts ih => intro off; exact ⟨rfl, rfl, ih (off + t.length)⟩

theorem withOffsets_map_fst : ∀ (ts : List String) (off : Nat),
    (withOffsets ts off).map (fun p => p.1) = ts := by
  intro ts
  induction ts with
  | nil => intro off; rfl
  | cons t ts ih => intro off; simp only [withOffsets, List.map_cons, ih]

/-- Positions produced by the boundary scan are at least the starting index (plus one
when the previous-token flag starts false). -/
theorem findBoundariesAux_pos (eos : List τ) :
    ∀ (ts : List τ) (i : Nat) (prev : Bool) (b : Nat),
      b ∈ findBoundariesAux eos ts i prev → (if prev = true then i else i + 1) ≤ b := by
  intro ts
  induction ts with
  | nil => intro i prev b hb; simp [findBoundariesAux] at hb
  | cons t ts ih =>
    intro i prev b hb
    rw [findBoundariesAux] at hb
    by_cases h1 : t ∈ eos
    · rw [if_pos h1] at hb
      have h2 : i + 1 ≤ b := by simpa using ih (i + 1) true b hb
      split
      · omega
      · omega
    · rw [if_neg h1] at hb
      by_cases h2 : prev = true
      · rw [if_pos h2] at hb
        rcases List.mem_cons.mp hb with h3 | h3
        · rw [h3, if_pos h2]
        · have h4 : i + 2 ≤ b := by simpa using ih (i + 1) false b h3
          split
          · omega
          · omega
      · rw [if_neg h2] at hb
        have h4 : i + 2 ≤ b := by simpa using ih (i + 1) false b hb
        split
        · omega
        · omega

/-- Every sentence boundary of `_find_best_split` is a positive index. -/
theorem findBoundaries_pos (eos : List τ) (tokens : List τ) :
    ∀ b ∈ findBoundaries eos tokens, 1 ≤ b := by
  intro b hb
  rw [findBoundaries] at hb
  rcases List.mem_append.mp hb with h1 | h2
  · have h3 := findBoundariesAux_pos eos tokens 0 false b h1
    simpa using h3
  · cases hL : tokens.getLast? with
    | none => simp only [hL] at h2; simp at h2
    | some t =>
      simp only [hL] at h2
      by_cases ht : t ∈ eos
      · rw [if_pos ht] at h2
        simp at h2
        subst h2
        have hne : tokens ≠ [] := by
          intro hnil
          rw [hnil] at hL
          simp at hL
        have := List.length_pos.mpr hne
        omega
      · rw [if_neg ht] at h2
        simp at h2

/-- The `best_boundary` loop keeps the accumulator at or below the limit once it
starts there positive, provided all boundaries are positive. -/
theorem bestBoundaryLoop_le {maxT : Nat} :
    ∀ (bs : List Nat) (best : Nat), 0 < best → best ≤ maxT → (∀ x ∈ bs, 0 < x) →
      bestBoundaryLoop maxT best bs ≤ maxT := by
  intro bs
  induction bs with
  | nil =>
    intro best _ h2 _
    simpa [bestBoundaryLoop] using h2
  | cons b bs ih =>
    intro best h1 h2 hpos
    rw [bestBoundaryLoop]
    by_cases hb : b ≤ maxT
    · rw [if_pos hb]
      exact ih b (hpos b (List.mem_cons_self b bs)) hb
        (fun x hx => hpos x (List.mem_cons_of_mem b hx))
    · rw [if_neg hb, if_neg (by omega : ¬ best = 0)]
      exact h2

/-- Claim C1 (amended).  The emitted chunk texts of a session are the concatenated
added fragments with only whitespace characters removed (nothing duplicated,
reordered or invented; the removals are the strips at chunk edges), and the chunks'
character ranges tile `[0, L)` contiguously where `L` is the total length of the
emitted chunk texts (not of the raw added text).  When the added fragments contain
no whitespace at all, the concatenation of chunk texts equals the concatenation of
the fragments exactly. -/
theorem c1_amended (maxT minT : Nat) (frags : List String) :
    WSDel (dataJoin frags) (dataJoin (sessionChunkTexts maxT minT frags)) ∧
    List.Sublist (dataJoin (sessionChunkTexts maxT minT frags)) (dataJoin frags) ∧
    ((∀ s ∈ frags, ∀ ch ∈ s.data, isWS ch = false) →
      concatTexts (sessionChunkTexts maxT minT frags) = concatTexts frags) ∧
    contiguousFrom 0 (sessionChunksWithOffsets maxT minT frags) ∧
    (sessionChunksWithOffsets maxT minT frags).map (fun p => p.1) =
      sessionChunkTexts maxT minT frags := by
  have hw := sessionChunkTexts_wsdel maxT minT frags
  refine ⟨hw, wsdel_sublist hw, ?_, withOffsets_contiguous _ 0, withOffsets_map_fst _ 0⟩
  intro hno
  have hnoj : ∀ ch ∈ dataJoin frags, isWS ch = false := by
    intro ch hch
    rw [dataJoin] at hch
    obtain ⟨l, hl, hch2⟩ := List.mem_flatten.mp hch
    obtain ⟨s, hs, rfl⟩ := List.mem_map.mp hl
    exact hno s hs ch hch2
  have heq := wsdel_eq_of_noWS hw hnoj
  rw [concatTexts, concatTexts, ← heq]

/-- Claim C1 as stated is false: adding the single fragment "Hi. " and ending the
queue emits the chunk "Hi." — the trailing space is lost, the concatenation of chunk
texts differs from the concatenation of added fragments, and the single chunk's
range `[0, 3)` does not tile `[0, 4)` where 4 is the added text length. -/
theorem c1_counterexample :
    sessionChunkTexts 50 15 ["Hi. "] = ["Hi."] ∧
    concatTexts (sessionChunkTexts 50 15 ["Hi. "]) ≠ concatTexts ["Hi. "] ∧
    sessionChunksWithOffsets 50 15 ["Hi. "] = [("Hi.", 0, 3)] ∧
    (concatTexts ["Hi. "]).length = 4 := by
  decide

theorem c1_witness :
    (∀ s ∈ ["Hi.", "Yo!"], ∀ ch ∈ s.data, isWS ch = false) ∧
    concatTexts (sessionChunkTexts 50 15 ["Hi.", "Yo!"]) = concatTexts ["Hi.", "Yo!"] :=
  ⟨by decide, (c1_amended 50 15 ["Hi.", "Yo!"]).2.2.1 (by decide)⟩

/-- Claim C2 (amended).  `_find_best_split` returns a split at or below `max_tokens`
whenever the first sentence boundary is at or below `max_tokens`; with no boundary at
all it hard-cuts at exactly `max_tokens` when the buffer has reached `max_tokens`
(and otherwise returns the whole length under force, or 0); but when boundaries
exist and the first one lies beyond `max_tokens`, the split is at that first
boundary — beyond `max_tokens`, not at it. -/
theorem c2_amended (eos : List τ) (maxT : Nat) (tokens : List τ) (forceEmit : Bool) :
    (findBoundaries eos tokens = [] →
      ((maxT ≤ tokens.length → findBestSplit eos maxT tokens forceEmit = maxT) ∧
       (tokens.length < maxT →
         findBestSplit eos maxT tokens forceEmit =
           (if forceEmit = true then tokens.length else 0)))) ∧
    (∀ b bs, findBoundaries eos tokens = b :: bs →
      ((b ≤ maxT → findBestSplit eos maxT tokens forceEmit ≤ maxT) ∧
       (maxT < b → findBestSplit eos maxT tokens forceEmit = b))) := by
  constructor
  · intro hB
    have hsplit : findBestSplit eos maxT tokens forceEmit =
        (if maxT ≤ tokens.length then maxT
         else if forceEmit = true then tokens.length else 0) := by
      simp [findBestSplit, hB]
    rw [hsplit]
    constructor
    · intro h
      rw [if_pos h]
    · intro h
      rw [if_neg (by omega)]
  · intro b bs hB
    have hpos := findBoundaries_pos eos tokens
    rw [hB] at hpos
    simp only [findBestSplit, hB]
    rw [if_neg (List.cons_ne_nil b bs), bestBoundaryLoop]
    constructor
    · intro hb
      rw [if_pos hb]
      exact bestBoundaryLoop_le bs b (hpos b (List.mem_cons_self b bs)) hb
        (fun x hx => hpos x (List.mem_cons_of_mem b hx))
    · intro hb
      rw [if_neg (by omega), if_pos rfl]

/-- Claim C2 is false as stated: with `max_tokens = 3` and buffer "abcd. x" the only
sentence boundary sits at token 5, beyond `max_tokens`, and the chunker emits the
5-token chunk "abcd." — not a hard cut at exactly 3 tokens. -/
theorem c2_counterexample :
    (tryExtractChunk (mkCharChunker 3 1 "abcd. x") false).map (fun p => p.1) =
      some "abcd." ∧
    (tryExtractChunk (mkCharChunker 3 1 "abcd. x") false).map (fun p => p.2.buffer) =
      some " x" ∧
    (charTokenizer.tokenize "abcd.").length = 5 ∧
    findBestSplit charEosTokens 3 (charTokenizer.tokenize (pyStrip "abcd. x")) false = 5 ∧
    ¬ (5 : Nat) ≤ 3 := by
  decide

theorem c2_witness :
    findBoundaries [(9 : Nat)] [1, 1, 9, 1, 1] = 3 :: [] ∧
    (3 : Nat) ≤ 4 ∧
    findBestSplit [(9 : Nat)] 4 [1, 1, 9, 1, 1] false ≤ 4 :=
  ⟨by decide, by decide,
    ((c2_amended [(9 : Nat)] 4 [1, 1, 9, 1, 1] false).2 3 [] (by decide)).1 (by decide)⟩

/-- Claim C5.  With no flush requested and a non-blank buffer strictly under
`max_tokens`, `_try_extract_chunk` emits a chunk iff the buffered token count is at
least `min_tokens` and the buffer ends at a sentence boundary (last token in the
end-of-sentence set); the chunk emitted is the whole stripped buffer and the buffer
is cleared. -/
theorem c5_early_emit (c : StreamingTextChunker τ)
    (hne : pyStrip c.buffer ≠ "")
    (hmax : (c.tok.tokenize (pyStrip c.buffer)).length < c.maxTokens) :
    ((tryExtractChunk c false).isSome = true ↔
      (c.minTokens ≤ (c.tok.tokenize (pyStrip c.buffer)).length ∧
        endsWithSentenceBoundary c.eosTokens (c.tok.tokenize (pyStrip c.buffer)) = true)) ∧
    (∀ p, tryExtractChunk c false = some p →
      p = (pyStrip c.buffer, { c with buffer := "" })) := by
  constructor
  · simp only [tryExtractChunk, if_neg hne]
    split_ifs with h1 h2 h3 h4 h5
    · simp only [Option.isSome_none, Bool.false_eq_true, false_iff]
      intro hcon
      exact absurd hcon.1 (by omega)
    · simp only [Option.isSome_some, true_iff]
      exact h3
    · simp only [Option.isSome_none, Bool.false_eq_true, false_iff]
      exact h3
    · exact absurd ⟨hmax, trivial⟩ h2
    · exact absurd ⟨hmax, trivial⟩ h2
    · exact absurd ⟨hmax, trivial⟩ h2
  · intro p hp
    simp only [tryExtractChunk, if_neg hne] at hp
    split_ifs at hp with h1 h2 h3 h4 h5
    · simp only [Option.some_inj] at hp
      exact hp.symm
    · exact h5.elim
    · exact absurd ⟨hmax, trivial⟩ h2

theorem c5_witness :
    (pyStrip (mkCharChunker 50 3 "Hi. ").buffer ≠ "") ∧
    ((mkCharChunker 50 3 "Hi. ").tok.tokenize
      (pyStrip (mkCharChunker 50 3 "Hi. ").buffer)).length <
      (mkCharChunker 50 3 "Hi. ").maxTokens ∧
    (tryExtractChunk (mkCharChunker 50 3 "Hi. ") false).isSome = true :=
  ⟨by decide, by decide,
    (c5_early_emit (mkCharChunker 50 3 "Hi. ") (by decide) (by decide)).1.mpr (by decide)⟩

/-- Claim C9.  `flush()` on an empty or whitespace-only buffer returns no chunks and
leaves the chunker unchanged; `flush()` on a non-blank buffer returns at least one
chunk and leaves the buffer empty. -/
theorem c9_flush (c : StreamingTextChunker Char) (htok : c.tok = charTokenizer) :
    (pyStrip c.buffer = "" → flush c = ([], c)) ∧
    (pyStrip c.buffer ≠ "" → (flush c).1 ≠ [] ∧ (flush c).2.buffer = "") := by
  constructor
  · intro h
    simp only [flush, if_pos h]
  · intro h
    exact flush_char_drains htok h

theorem c9_witness :
    (pyStrip (mkCharChunker 50 15 "   ").buffer = "") ∧
    flush (mkCharChunker 50 15 "   ") = ([], mkCharChunker 50 15 "   ") ∧
    (pyStrip (mkCharChunker 50 15 "Hello").buffer ≠ "") ∧
    (flush (mkCharChunker 50 15 "Hello")).1 ≠ [] ∧
    (flush (mkCharChunker 50 15 "Hello")).2.buffer = "" :=
  ⟨by decide, (c9_flush (mkCharChunker 50 15 "   ") rfl).1 (by decide), by decide,
    ((c9_flush (mkCharChunker 50 15 "Hello") rfl).2 (by decide)).1,
    ((c9_flush (mkCharChunker 50 15 "Hello") rfl).2 (by decide)).2⟩

/-! Facts about the session operations and the step relation. -/

theorem addTtsText_frame (s : TTSQueueState) (t : String) (now : Nat) :
    (addTtsText s t now).2.status = s.status ∧
    (addTtsText s t now).2.taskAlive = s.taskAlive ∧
    (addTtsText s t now).2.inRegistry = s.inRegistry := by
  rw [addTtsText]
  split_ifs <;> exact ⟨rfl, rfl, rfl⟩

theorem endTtsQueue_frame (s : TTSQueueState) (now : Nat) :
    (endTtsQueue s now).2.status = s.status ∧
    (endTtsQueue s now).2.taskAlive = s.taskAlive ∧
    (endTtsQueue s now).2.inRegistry = s.inRegistry := by
  simp only [endTtsQueue]
  split_ifs <;> exact ⟨rfl, rfl, rfl⟩

theorem pollTtsAudio_frame (s : TTSQueueState) (now : Nat) :
    (pollTtsAudio s now).2.status = s.status ∧
    (pollTtsAudio s now).2.taskAlive = s.taskAlive ∧
    (pollTtsAudio s now).2.inRegistry = s.inRegistry := by
  simp only [pollTtsAudio]
  split_ifs <;> exact ⟨rfl, rfl, rfl⟩

theorem notInRegistry_ops_id (s : TTSQueueState) (h : s.inRegistry = false) :
    (∀ t now, (addTtsText s t now).2 = s) ∧
    (∀ now, (endTtsQueue s now).2 = s) ∧
    (∀ now, (pollTtsAudio s now).2 = s) ∧
    (cancelTtsQueue s).2 = s := by
  refine ⟨?_, ?_, ?_, ?_⟩
  · intro t now
    rw [addTtsText, if_pos h]
  · intro now
    rw [endTtsQueue, if_pos h]
  · intro now
    rw [pollTtsAudio, if_pos h]
  · rw [cancelTtsQueue, if_pos h]

theorem cancel_effect (s : TTSQueueState) (h : s.inRegistry = true) :
    (cancelTtsQueue s).2.status = Status.complete ∧
    (cancelTtsQueue s).2.taskAlive = false ∧
    (cancelTtsQueue s).2.inRegistry = false ∧
    (cancelTtsQueue s).2.audioChunks = s.audioChunks := by
  simp only [cancelTtsQueue]
  rw [if_neg (by simp [h])]
  split_ifs <;> exact ⟨rfl, rfl, rfl, rfl⟩

/-- A step from a state whose task is dead and which is out of the registry changes
nothing at all. -/
theorem step_dead_unreg {s s2 : TTSQueueState} (hstep : Step s s2)
    (halive : s.taskAlive = false) (hreg : s.inRegistry = false) : s2 = s := by
  cases hstep with
  | nc h =>
    cases h with
    | add t now => exact (notInRegistry_ops_id s hreg).1 t now
    | endq now => exact (notInRegistry_ops_id s hreg).2.1 now
    | poll now => exact (notInRegistry_ops_id s hreg).2.2.1 now
    | timeout now ha he => rw [ha] at halive; exact absurd halive (by simp)
    | recvText t ha hh => rw [ha] at halive; exact absurd halive (by simp)
    | appendChunk cdata ha => rw [ha] at halive; exact absurd halive (by simp)
    | finishEOF ha hh => rw [ha] at halive; exact absurd halive (by simp)
    | synthFail msg ha => rw [ha] at halive; exact absurd halive (by simp)
  | cancel => exact (notInRegistry_ops_id s hreg).2.2.2

theorem steps_dead_unreg {s s2 : TTSQueueState}
    (h : Relation.ReflTransGen Step s s2)
    (halive : s.taskAlive = false) (hreg : s.inRegistry = false) : s2 = s := by
  induction h with
  | refl => rfl
  | tail hab hbc ih =>
    rw [ih] at hbc
    exact step_dead_unreg hbc halive hreg

/-- Every step preserves "a terminal status implies the task is dead". -/
theorem step_term_dead {s s2 : TTSQueueState} (h : Step s s2)
    (inv : s.status ≠ Status.active → s.taskAlive = false) :
    s2.status ≠ Status.active → s2.taskAlive = false := by
  cases h with
  | nc hnc =>
    cases hnc with
    | add t now =>
      have hf := addTtsText_frame s t now
      intro hterm
      rw [hf.2.1]
      exact inv (by rw [← hf.1]; exact hterm)
    | endq now =>
      have hf := endTtsQueue_frame s now
      intro hterm
      rw [hf.2.1]
      exact inv (by rw [← hf.1]; exact hterm)
    | poll now =>
      have hf := pollTtsAudio_frame s now
      intro hterm
      rw [hf.2.1]
      exact inv (by rw [← hf.1]; exact hterm)
    | timeout now ha he =>
      rw [taskTimeoutCheck]
      split_ifs
      · intro _; rfl
      · exact inv
    | recvText t ha hh =>
      intro hterm
      rw [taskReceiveText]
      exact inv hterm
    | appendChunk cdata ha =>
      intro hterm
      rw [taskAppendChunk]
      exact inv hterm
    | finishEOF ha hh => intro _; rfl
    | synthFail msg ha => intro _; rfl
  | cancel =>
    by_cases hreg : s.inRegistry = false
    · rw [(notInRegistry_ops_id s hreg).2.2.2]
      exact inv
    · intro _
      exact (cancel_effect s (by revert hreg; cases h : s.inRegistry <;> simp)).2.1

theorem reachable_term_dead {s0 s : TTSQueueState}
    (h : Relation.ReflTransGen Step s0 s) (hinit : s0.status = Status.active) :
    s.status ≠ Status.active → s.taskAlive = false := by
  induction h with
  | refl => intro hs; exact absurd hinit hs
  | tail hab hbc ih => exact step_term_dead hbc ih

/-- A non-cancel step from a terminal state with a dead task keeps the status (and
the task dead). -/
theorem stepnc_preserves_terminal {s s2 : TTSQueueState} (h : StepNC s s2)
    (hterm : s.status ≠ Status.active) (hdead : s.taskAlive = false) :
    s2.status = s.status ∧ s2.taskAlive = false := by
  cases h with
  | add t now =>
    exact ⟨(addTtsText_frame s t now).1, (addTtsText_frame s t now).2.1.trans hdead⟩
  | endq now =>
    exact ⟨(endTtsQueue_frame s now).1, (endTtsQueue_frame s now).2.1.trans hdead⟩
  | poll now =>
    exact ⟨(pollTtsAudio_frame s now).1, (pollTtsAudio_frame s now).2.1.trans hdead⟩
  | timeout now ha he => rw [ha] at hdead; exact absurd hdead (by simp)
  | recvText t ha hh => rw [ha] at hdead; exact absurd hdead (by simp)
  | appendChunk cdata ha => rw [ha] at hdead; exact absurd hdead (by simp)
  | finishEOF ha hh => rw [ha] at hdead; exact absurd hdead (by simp)
  | synthFail msg ha => rw [ha] at hdead; exact absurd hdead (by simp)

theorem stepsnc_preserve_terminal {s s2 : TTSQueueState}
    (h : Relation.ReflTransGen StepNC s s2)
    (hterm : s.status ≠ Status.active) (hdead : s.taskAlive = false) :
    s2.status = s.status := by
  have h2 : s2.status = s.status ∧ s2.taskAlive = false := by
    induction h with
    | refl => exact ⟨rfl, hdead⟩
    | tail hab hbc ih =>
      obtain ⟨h1, h2⟩ := ih
      have h3 := stepnc_preserves_terminal hbc (by rw [h1]; exact hterm) h2
      exact ⟨h3.1.trans h1, h3.2⟩
  exact h2.1

/-- Claim C3 (amended).  Along any execution of a session created by
`create_tts_queue`, once the status leaves `active` no operation other than
`cancel_tts_queue` ever changes it again; but `cancel_tts_queue` unconditionally
sets the status of a registered session to `complete` — including a session whose
status is `error` — while simultaneously removing it from the registry. -/
theorem c3_amended :
    (∀ (id voice : String) (sr now0 : Nat) (s s2 : TTSQueueState),
      Relation.ReflTransGen Step (mkQueueState id voice sr now0) s →
      Relation.ReflTransGen StepNC s s2 →
      s.status ≠ Status.active → s2.status = s.status) ∧
    (∀ s : TTSQueueState, s.inRegistry = true →
      (cancelTtsQueue s).2.status = Status.complete) := by
  constructor
  · intro id voice sr now0 s s2 hreach hnc hterm
    exact stepsnc_preserve_terminal hnc hterm (reachable_term_dead hreach rfl hterm)
  · intro s h
    exact (cancel_effect s h).1

/-- Claim C3 is false as stated: a session that timed out is in the terminal state
`error`, yet `cancel_tts_queue` moves its status to `complete`. -/
theorem c3_counterexample :
    (taskTimeoutCheck (mkQueueState "q" "v" 24000 0) 31).status = Status.error ∧
    (cancelTtsQueue (taskTimeoutCheck (mkQueueState "q" "v" 24000 0) 31)).2.status =
      Status.complete := by
  decide

theorem c3_witness :
    (pollTtsAudio (taskTimeoutCheck (mkQueueState "q" "v" 24000 0) 31) 40).2.status =
      (taskTimeoutCheck (mkQueueState "q" "v" 24000 0) 31).status :=
  c3_amended.1 "q" "v" 24000 0 _ _
    (Relation.ReflTransGen.single (Step.nc (StepNC.timeout 31 rfl rfl)))
    (Relation.ReflTransGen.single (StepNC.poll 40))
    (by decide)

/-- Claim C6.  After `cancel_tts_queue` completes on a registered session, no step of
any kind ever appends another chunk (the chunk list stays exactly as observed at
cancel time) and the session stays out of the registry. -/
theorem c6_cancel_stops_appends (s s2 : TTSQueueState) (hreg : s.inRegistry = true)
    (h : Relation.ReflTransGen Step (cancelTtsQueue s).2 s2) :
    s2.audioChunks = s.audioChunks ∧ s2.inRegistry = false := by
  have he := cancel_effect s hreg
  have h2 := steps_dead_unreg h he.2.1 he.2.2.1
  rw [h2]
  exact ⟨he.2.2.2, he.2.2.1⟩

theorem c6_witness :
    (cancelTtsQueue (mkQueueState "q" "v" 24000 0)).2.audioChunks =
      (mkQueueState "q" "v" 24000 0).audioChunks ∧
    (cancelTtsQueue (mkQueueState "q" "v" 24000 0)).2.inRegistry = false :=
  c6_cancel_stops_appends (mkQueueState "q" "v" 24000 0) _ rfl
    Relation.ReflTransGen.refl

/-- Claim C7 (amended).  The staleness check fails a session with a timeout message
exactly when strictly more than `QUEUE_TIMEOUT_SECONDS` (30s) elapsed since the last
activity — at exactly 30 seconds the session stays untouched; and `add_tts_text`,
`end_tts_queue` and `poll_tts_audio` all reset the activity clock on success. -/
theorem c7_amended :
    (∀ (s : TTSQueueState) (now : Nat), s.taskAlive = true → s.textQueue = [] →
      QUEUE_TIMEOUT_SECONDS < now - s.lastActivity →
      (taskTimeoutCheck s now).status = Status.error ∧
      (taskTimeoutCheck s now).errorMessage = some timeoutMessage ∧
      (taskTimeoutCheck s now).taskAlive = false) ∧
    (∀ (s : TTSQueueState) (now : Nat), now - s.lastActivity ≤ QUEUE_TIMEOUT_SECONDS →
      taskTimeoutCheck s now = s) ∧
    (∀ (s : TTSQueueState) (t : String) (now : Nat),
      (addTtsText s t now).1 = AddTextResult.queued →
      (addTtsText s t now).2.lastActivity = now) ∧
    (∀ (s : TTSQueueState) (now : Nat),
      (endTtsQueue s now).1 = EndQueueResult.ended →
      (endTtsQueue s now).2.lastActivity = now) ∧
    (∀ (s : TTSQueueState) (now : Nat) (r : PollResponse) (s2 : TTSQueueState),
      pollTtsAudio s now = (some r, s2) → s2.lastActivity = now) := by
  refine ⟨?_, ?_, ?_, ?_, ?_⟩
  · intro s now _ _ h
    rw [taskTimeoutCheck, if_pos h]
    exact ⟨rfl, rfl, rfl⟩
  · intro s now h
    rw [taskTimeoutCheck, if_neg (by omega)]
  · intro s t now h
    rw [addTtsText] at h ⊢
    split_ifs at h ⊢ <;> rfl
  · intro s now h
    simp only [endTtsQueue] at h ⊢
    split_ifs at h ⊢ <;> rfl
  · intro s now r s2 h
    simp only [pollTtsAudio] at h
    split_ifs at h with h1
    · rw [Prod.mk.injEq] at h
      exact absurd h.1 (by simp)
    · rw [Prod.mk.injEq] at h
      rw [← h.2]

/-- Claim C7 is false at the boundary: with exactly 30 seconds of inactivity ("at
least 30 seconds") the check does not fire — the code requires strictly more. -/
theorem c7_counterexample :
    30 - (mkQueueState "q" "v" 24000 0).lastActivity = QUEUE_TIMEOUT_SECONDS ∧
    taskTimeoutCheck (mkQueueState "q" "v" 24000 0) 30 = mkQueueState "q" "v" 24000 0 ∧
    (taskTimeoutCheck (mkQueueState "q" "v" 24000 0) 30).status = Status.active := by
  decide

theorem c7_witness :
    (taskTimeoutCheck (mkQueueState "q" "v" 24000 0) 31).status = Status.error ∧
    (taskTimeoutCheck (mkQueueState "q" "v" 24000 0) 31).errorMessage =
      some timeoutMessage ∧
    (taskTimeoutCheck (mkQueueState "q" "v" 24000 0) 31).taskAlive = false :=
  c7_amended.1 (mkQueueState "q" "v" 24000 0) 31 rfl rfl (by decide)

/-- Claim C8.  On a registered session with end-of-stream already signaled,
`add_tts_text` fails with the already-ended error and `end_tts_queue` returns the
non-error already-ended indication; neither call changes the session state. -/
theorem c8_already_ended (s : TTSQueueState) (t : String) (now : Nat)
    (hreg : s.inRegistry = true) (hend : s.endSignaled = true) :
    addTtsText s t now = (AddTextResult.alreadyEnded, s) ∧
    endTtsQueue s now = (EndQueueResult.alreadyEnded, s) := by
  constructor
  · rw [addTtsText, if_neg (by simp [hreg]), if_pos hend]
  · rw [endTtsQueue, if_neg (by simp [hreg]), if_pos hend]

theorem c8_witness :
    addTtsText (endTtsQueue (mkQueueState "q" "v" 24000 0) 1).2 "x" 2 =
      (AddTextResult.alreadyEnded, (endTtsQueue (mkQueueState "q" "v" 24000 0) 1).2) ∧
    endTtsQueue (endTtsQueue (mkQueueState "q" "v" 24000 0) 1).2 2 =
      (EndQueueResult.alreadyEnded, (endTtsQueue (mkQueueState "q" "v" 24000 0) 1).2) :=
  ⟨(c8_already_ended (endTtsQueue (mkQueueState "q" "v" 24000 0) 1).2 "x" 2
      (by decide) (by decide)).1,
   (c8_already_ended (endTtsQueue (mkQueueState "q" "v" 24000 0) 1).2 "x" 2
      (by decide) (by decide)).2⟩

/-- Claim C10.  Sessions are created with an unbounded input queue
(`asyncio.Queue()` default `maxsize = 0`), so `add_tts_text` can never return the
QueueFull error on such a session, and the end-of-stream sentinel enqueued by
`end_tts_queue` is never dropped. -/
theorem c10_no_queue_full :
    (∀ (s : TTSQueueState) (t : String) (now : Nat), s.queueMaxsize = 0 →
      (addTtsText s t now).1 ≠ AddTextResult.queueFull) ∧
    (∀ (s : TTSQueueState) (now : Nat), s.queueMaxsize = 0 → s.inRegistry = true →
      s.endSignaled = false →
      (endTtsQueue s now).2.textQueue = s.textQueue ++ [none]) ∧
    (∀ (id voice : String) (sr now : Nat),
      (mkQueueState id voice sr now).queueMaxsize = 0) := by
  refine ⟨?_, ?_, ?_⟩
  · intro s t now h
    have hok : queuePutOk s = true := by simp [queuePutOk, h]
    rw [addTtsText]
    split_ifs with h1 h2
    · simp
    · simp
    · simp
  · intro s now h hreg hend
    rw [endTtsQueue, if_neg (by simp [hreg]), if_neg (by simp [hend])]
    rw [if_pos (by simp [queuePutOk, h])]
  · intro id voice sr now
    rfl

theorem c10_witness :
    (mkQueueState "q" "v" 24000 0).queueMaxsize = 0 ∧
    (endTtsQueue (mkQueueState "q" "v" 24000 0) 1).2.textQueue =
      (mkQueueState "q" "v" 24000 0).textQueue ++ [none] :=
  ⟨c10_no_queue_full.2.2 "q" "v" 24000 0,
   c10_no_queue_full.2.1 (mkQueueState "q" "v" 24000 0) 1 rfl rfl rfl⟩

/-- Delivery invariant of `poll_tts_audio` over any trace of appends, polls and
terminal transitions: the responses collected so far extend the delivered prefix of
the chunk list, the cursor never exceeds the chunk count nor retreats, and every
response's done flag equals "status is terminal" (all chunks being delivered by the
poll that produced the response). -/
theorem replay_invariant : ∀ (evs : List PollEv) (s : TTSQueueState),
    s.inRegistry = true → s.chunksDelivered ≤ s.audioChunks.length →
    (s.audioChunks.take s.chunksDelivered ++
        ((replay s evs).2.map (fun r => r.chunks)).flatten =
      (replay s evs).1.audioChunks.take (replay s evs).1.chunksDelivered) ∧
    (replay s evs).1.inRegistry = true ∧
    (replay s evs).1.chunksDelivered ≤ (replay s evs).1.audioChunks.length ∧
    s.chunksDelivered ≤ (replay s evs).1.chunksDelivered ∧
    (∀ r ∈ (replay s evs).2,
      (r.done = true ↔ (r.status = Status.complete ∨ r.status = Status.error))) := by
  intro evs
  induction evs with
  | nil =>
    intro s hreg hinv
    simp only [replay]
    refine ⟨by simp, hreg, hinv, le_refl _, by simp⟩
  | cons e es ih =>
    intro s hreg hinv
    cases e with
    | append cdata =>
      simp only [replay, replayEv]
      have ihh := ih (taskAppendChunk s cdata) (by simpa [taskAppendChunk] using hreg)
        (by simp [taskAppendChunk]; omega)
      refine ⟨?_, ihh.2.1, ihh.2.2.1, ihh.2.2.2.1, ihh.2.2.2.2⟩
      have h1 := ihh.1
      have e1 : (taskAppendChunk s cdata).chunksDelivered = s.chunksDelivered := rfl
      have e2 : (taskAppendChunk s cdata).audioChunks = s.audioChunks ++ [cdata] := rfl
      rw [e1, e2, List.take_append_of_le_length hinv] at h1
      exact h1
    | poll now =>
      have hcond : ¬ (s.inRegistry = false) := by simp [hreg]
      simp only [replay, replayEv, pollTtsAudio, if_neg hcond, List.map_cons,
        List.flatten_cons]
      have ihh := ih { s with chunksDelivered := s.audioChunks.length, lastActivity := now }
        (by simpa using hreg) (by simp)
      refine ⟨?_, ihh.2.1, ihh.2.2.1, ?_, ?_⟩
      · rw [← List.append_assoc, List.take_append_drop]
        have h1 := ihh.1
        have e1 : ({ s with chunksDelivered := s.audioChunks.length, lastActivity := now } :
            TTSQueueState).chunksDelivered = s.audioChunks.length := rfl
        have e2 : ({ s with chunksDelivered := s.audioChunks.length, lastActivity := now } :
            TTSQueueState).audioChunks = s.audioChunks := rfl
        rw [e1, e2, List.take_length] at h1
        exact h1
      · calc s.chunksDelivered ≤ s.audioChunks.length := hinv
          _ ≤ _ := ihh.2.2.2.1
      · intro r hr
        rcases List.mem_cons.mp hr with hr1 | hr2
        · subst hr1
          cases hst : s.status <;> simp [hst]
        · exact ihh.2.2.2.2 r hr2
    | finish =>
      simp only [replay, replayEv]
      exact ih { s with status := Status.complete, taskAlive := false }
        (by simpa using hreg) (by simpa using hinv)
    | fail msg =>
      simp only [replay, replayEv]
      exact ih (taskSynthFailure s msg) (by simpa [taskSynthFailure] using hreg)
        (by simpa [taskSynthFailure] using hinv)

theorem replay_append_fst : ∀ (l1 l2 : List PollEv) (s : TTSQueueState),
    (replay s (l1 ++ l2)).1 = (replay (replay s l1).1 l2).1 := by
  intro l1
  induction l1 with
  | nil => intro l2 s; rfl
  | cons e l1 ih =>
    intro l2 s
    simp only [List.cons_append, replay]
    exact ih l2 (replayEv s e).1

/-- Claim C4.  Over any interleaving of background-task appends, terminal
transitions and polls on a fresh session: the concatenation of all poll responses'
chunk lists, in order, equals exactly the delivered prefix of the session's chunk
list (so every chunk is returned at most once, in order, and each poll returns
precisely the chunks appended since the previous poll); the delivery cursor never
exceeds the chunk count and only ever advances; and each returned done flag is true
exactly when the status is terminal — every appended chunk having been delivered by
that same poll. -/
theorem c4_poll_delivery (id voice : String) (sr now0 : Nat) (evs : List PollEv) :
    (((replay (mkQueueState id voice sr now0) evs).2.map (fun r => r.chunks)).flatten =
      (replay (mkQueueState id voice sr now0) evs).1.audioChunks.take
        (replay (mkQueueState id voice sr now0) evs).1.chunksDelivered) ∧
    (replay (mkQueueState id voice sr now0) evs).1.chunksDelivered ≤
      (replay (mkQueueState id voice sr now0) evs).1.audioChunks.length ∧
    (∀ r ∈ (replay (mkQueueState id voice sr now0) evs).2,
      (r.done = true ↔ (r.status = Status.complete ∨ r.status = Status.error))) ∧
    (∀ evs2 : List PollEv,
      (replay (mkQueueState id voice sr now0) evs).1.chunksDelivered ≤
        (replay (mkQueueState id voice sr now0) (evs ++ evs2)).1.chunksDelivered) := by
  have h := replay_invariant evs (mkQueueState id voice sr now0) rfl (by simp [mkQueueState])
  refine ⟨?_, h.2.2.1, h.2.2.2.2, ?_⟩
  · have h1 := h.1
    simpa [mkQueueState] using h1
  · intro evs2
    rw [replay_append_fst]
    exact (replay_invariant evs2 (replay (mkQueueState id voice sr now0) evs).1
      h.2.1 h.2.2.1).2.2.2.1

theorem c4_witness :
    ((replay (mkQueueState "q" "v" 24000 0)
        (PollEv.append (⟨0, "AA", 0, 3, 100⟩ : AudioChunkData) :: PollEv.poll 1 :: PollEv.finish :: PollEv.poll 2 ::
          [])).2.map (fun r => r.chunks)).flatten =
      (replay (mkQueueState "q" "v" 24000 0)
        (PollEv.append (⟨0, "AA", 0, 3, 100⟩ : AudioChunkData) :: PollEv.poll 1 :: PollEv.finish :: PollEv.poll 2 ::
          [])).1.audioChunks.take
        (replay (mkQueueState "q" "v" 24000 0)
          (PollEv.append (⟨0, "AA", 0, 3, 100⟩ : AudioChunkData) :: PollEv.poll 1 :: PollEv.finish :: PollEv.poll 2 ::
            [])).1.chunksDelivered :=
  (c4_poll_delivery "q" "v" 24000 0
    (PollEv.append (⟨0, "AA", 0, 3, 100⟩ : AudioChunkData) :: PollEv.poll 1 :: PollEv.finish :: PollEv.poll 2 :: [])).1

end SayServer
